import Mathlib

/-! Shallow embedding of the Ark settlement core: the PSBT metadata codec and
exit-claim signer from `bark/src/psbtext.rs`, and the spendable-UTXO
enumerator, round-UTXO cosigner and onchain-address accessor from
`arkd/src/lib.rs`. Cryptographic primitives (Schnorr signing, taproot
sighashes, key tweaks) are abstracted as a `Crypto` record of total
functions; byte strings are lists of naturals; a Rust panic (`unwrap`,
`expect`, `assert!`) is modelled by an explicit `panic` outcome distinct
from a recoverable `Result` error. -/

set_option autoImplicit false
set_option maxRecDepth 16384

namespace Ark

/-- Byte strings, as lists of naturals. -/
abbrev Bytes := List Nat

/-- Little-endian fixed-width byte encoding of a natural number
(`k` bytes; digits base 256). -/
def natToBytesLE : Nat → Nat → Bytes
  | 0, _ => []
  | k + 1, n => n % 256 :: natToBytesLE k (n / 256)

/-- Little-endian byte decoding, inverse of `natToBytesLE` on legal values. -/
def bytesToNatLE : Bytes → Nat
  | [] => 0
  | b :: rest => b + 256 * bytesToNatLE rest

/-- Length of a Bitcoin variable-length integer encoding. -/
def varintLen (n : Nat) : Nat :=
  if n < 253 then 1 else if n < 65536 then 3 else if n < 4294967296 then 5 else 9

/-- Serialized size of a segwit witness stack (`Witness::serialized_len` /
`Witness::size`): the element count as a varint, then each element
length-prefixed. -/
def witnessSerializedSize (w : List Bytes) : Nat :=
  varintLen w.length + (w.map (fun e => varintLen e.length + e.length)).sum

/-- An outpoint: transaction id (abstracted to a natural) and output index. -/
structure OutPoint where
  txid : Nat
  vout : Nat
deriving DecidableEq, Repr

/-- A transaction output. -/
structure TxOut where
  value : Nat
  script_pubkey : Bytes
deriving DecidableEq, Repr

/-- A transaction, reduced to the fields this core consumes: its id and its
outputs. -/
structure Transaction where
  txid : Nat
  output : List TxOut
deriving DecidableEq, Repr

/-- A taproot control block, kept in already-serializable form. -/
structure ControlBlock where
  ser : Bytes
deriving DecidableEq, Repr

/-- A PSBT proprietary key: namespace bytes (rust field `prefix`), subtype
discriminant, and key suffix. -/
structure PropKeyRaw where
  ident : Bytes
  subtype : Nat
  key : Bytes
deriving DecidableEq, Repr

/-- The subset of `bitcoin::psbt::Input` fields this core reads or writes. -/
structure Input where
  witness_utxo : Option TxOut
  sighash_type : Option Nat
  tap_internal_key : Option Nat
  tap_scripts : List (ControlBlock × Bytes × Nat)
  tap_merkle_root : Option Nat
  non_witness_utxo : Option Transaction
  final_script_witness : Option (List Bytes)
  proprietary : List (PropKeyRaw × Bytes)
deriving DecidableEq, Repr

/-- `psbt::Input::default()`: every field empty. -/
def Input.default : Input :=
  { witness_utxo := none
    sighash_type := none
    tap_internal_key := none
    tap_scripts := []
    tap_merkle_root := none
    non_witness_utxo := none
    final_script_witness := none
    proprietary := [] }

/-- A PSBT: the unsigned transaction and its per-input maps. -/
structure Psbt where
  unsigned_tx : Transaction
  inputs : List Input
deriving DecidableEq, Repr

/-- Outcome of an operation that can abort the process (Rust `unwrap`,
`expect`, `assert!`): either a value or a panic with its message. -/
inductive PanicOr (α : Type) where
  | ok : α → PanicOr α
  | panic : String → PanicOr α
deriving DecidableEq, Repr

instance {ε α : Type} [DecidableEq ε] [DecidableEq α] :
    DecidableEq (Except ε α) := fun a b =>
  match a, b with
  | .error e1, .error e2 =>
    if h : e1 = e2 then .isTrue (by rw [h]) else .isFalse (by simp [h])
  | .error _, .ok _ => .isFalse (by simp)
  | .ok _, .error _ => .isFalse (by simp)
  | .ok a1, .ok a2 =>
    if h : a1 = a2 then .isTrue (by rw [h]) else .isFalse (by simp [h])

/-- `BTreeMap::get` on the proprietary map. -/
def propGet : List (PropKeyRaw × Bytes) → PropKeyRaw → Option Bytes
  | [], _ => none
  | p :: rest, k => if p.1 = k then some p.2 else propGet rest k

/-- `BTreeMap::insert` on the proprietary map: replace an existing binding
for the key, else add one. -/
def propInsert (m : List (PropKeyRaw × Bytes)) (k : PropKeyRaw) (v : Bytes) :
    List (PropKeyRaw × Bytes) :=
  match m with
  | [] => [(k, v)]
  | p :: rest => if p.1 = k then (k, v) :: rest else p :: propInsert rest k v

/-- Modelled from the spec: the vtxo spec carried inside a `ClaimInput`
(the `bark` crate's `exit` module is not under `src/`); per spec sections 3
and 4.5 it records the user public key, the exit script/leaf data and fee
data. -/
structure VtxoSpec where
  user_pubkey : Nat
  asp_pubkey : Nat
  expiry_height : Nat
  exit_delta : Nat
  amount : Nat
deriving DecidableEq, Repr

/-- Modelled from the spec: a unilateral-exit claim description attached to
a PSBT input (the `bark` crate's `exit::ClaimInput` is not under `src/`). -/
structure ClaimInput where
  spec : VtxoSpec
deriving DecidableEq, Repr

/-- A claim value is legal when each field fits its 32-byte encoding slot. -/
def legalClaim (c : ClaimInput) : Prop :=
  c.spec.user_pubkey < 256 ^ 32 ∧ c.spec.asp_pubkey < 256 ^ 32 ∧
  c.spec.expiry_height < 256 ^ 32 ∧ c.spec.exit_delta < 256 ^ 32 ∧
  c.spec.amount < 256 ^ 32

instance (c : ClaimInput) : Decidable (legalClaim c) := by
  unfold legalClaim; infer_instance

/-- Modelled from the spec: the deterministic binary encoding of a
`ClaimInput` (five fields, 32 bytes each, little-endian). -/
def ClaimInput.encode (c : ClaimInput) : Bytes :=
  natToBytesLE 32 c.spec.user_pubkey ++ (natToBytesLE 32 c.spec.asp_pubkey ++
    (natToBytesLE 32 c.spec.expiry_height ++ (natToBytesLE 32 c.spec.exit_delta ++
      natToBytesLE 32 c.spec.amount)))

/-- Modelled from the spec: decoding of a `ClaimInput`; anything that is not
exactly five 32-byte fields is malformed. -/
def ClaimInput.decode (bs : Bytes) : Option ClaimInput :=
  if bs.length = 160 then
    let r1 := bs.drop 32
    let r2 := r1.drop 32
    let r3 := r2.drop 32
    some ⟨⟨bytesToNatLE (bs.take 32), bytesToNatLE (r1.take 32),
      bytesToNatLE (r2.take 32), bytesToNatLE (r3.take 32),
      bytesToNatLE (r3.drop 32)⟩⟩
  else none

/-- `PROP_KEY_PREFIX` in `bark/src/psbtext.rs`: the ASCII bytes of "bark". -/
def PROP_KEY_BARK : Bytes := [98, 97, 114, 107]

/-- `PROP_KEY_CLAIM_INPUT`: the bark namespace, subtype `PropKey::ClaimInput
= 1`, empty key suffix. -/
def PROP_KEY_CLAIM_INPUT : PropKeyRaw := ⟨PROP_KEY_BARK, 1, []⟩

/-- `PsbtInputExt::set_claim_input`: store the encoded claim under the claim
proprietary key. -/
def Input.set_claim_input (inp : Input) (c : ClaimInput) : Input :=
  { inp with proprietary := propInsert inp.proprietary PROP_KEY_CLAIM_INPUT c.encode }

/-- `PsbtInputExt::get_claim_input`: look up the claim proprietary key;
absent gives `none`, present-but-undecodable hits the
`.expect("corrupt psbt")` and aborts the process. -/
def Input.get_claim_input (inp : Input) : PanicOr (Option ClaimInput) :=
  match propGet inp.proprietary PROP_KEY_CLAIM_INPUT with
  | none => .ok none
  | some bs =>
    match ClaimInput.decode bs with
    | some c => .ok (some c)
    | none => .panic "corrupt psbt"

/-- A secp256k1 keypair, abstracted to its secret scalar. -/
structure Keypair where
  sk : Nat
deriving DecidableEq, Repr

/-- The public key of a keypair (x-only form is the same abstract value). -/
def Keypair.public_key (k : Keypair) : Nat := k.sk

/-- `TapSighashType::Default`. -/
def tapSighashDefault : Nat := 0

/-- `LeafVersion::TapScript` (0xc0). -/
def leafVersionTapScript : Nat := 192

/-- The cryptographic primitives the signers use, abstracted as total
functions: Schnorr signing (64-byte signatures), tap-leaf hashing, taproot
script-path and key-path sighash computation over an All-prevouts set, and
the key-path tweak `KeyPairExt::for_keyspend`. -/
structure Crypto where
  signSchnorr : Nat → Keypair → Bytes
  tapLeafHash : Bytes → Nat → Nat
  scriptSpendSighash : Transaction → List TxOut → Nat → Nat → Nat → Nat
  keySpendSighash : Transaction → List TxOut → Nat → Nat → Nat
  for_keyspend : Keypair → Keypair
  sig_len : ∀ m k, (signSchnorr m k).length = 64

/-- Modelled from the spec: the exit-clause leaf script derived from the
claim's vtxo spec (the `bark` crate's `exit` module is not under `src/`);
a fixed-shape script over the exit delta and the user public key. -/
def VtxoSpec.exit_clause (s : VtxoSpec) : Bytes :=
  natToBytesLE 2 s.exit_delta ++ natToBytesLE 32 s.user_pubkey

/-- Modelled from the spec: the control block obtained from the claim's
known taproot spend info (`exit_taproot().control_block(..)`), in serialized
form: a parity-and-leaf-version byte followed by the internal key. -/
def VtxoSpec.exit_control_block (s : VtxoSpec) : ControlBlock :=
  ⟨193 :: natToBytesLE 32 s.asp_pubkey⟩

/-- Modelled from the spec: a claim's precomputed satisfaction weight, the
serialized size of its `[signature, script, control block]` exit witness
with a 64-byte Schnorr signature. -/
def ClaimInput.satisfaction_weight (c : ClaimInput) : Nat :=
  witnessSerializedSize
    [List.replicate 64 0, c.spec.exit_clause, c.spec.exit_control_block.ser]

/-- `PsbtInputExt::try_sign_claim_input`: no-op without a claim tag;
otherwise compute the script-path sighash for the exit clause under
`SIGHASH_DEFAULT`, `assert_eq!` the signing key against the claim's user
key (a mismatch aborts), Schnorr-sign, and set the final witness to
`[signature, script, control block]`. The witness-size `debug_assert_eq!`
is compiled out in release builds and has no effect here. -/
def Input.try_sign_claim_input (crypto : Crypto) (inp : Input)
    (tx : Transaction) (prevouts : List TxOut) (input_idx : Nat)
    (vtxo_key : Keypair) : PanicOr Input :=
  match inp.get_claim_input with
  | .panic m => .panic m
  | .ok none => .ok inp
  | .ok (some claim) =>
    let exit_script := claim.spec.exit_clause
    let leaf_hash := crypto.tapLeafHash exit_script leafVersionTapScript
    let sighash :=
      crypto.scriptSpendSighash tx prevouts input_idx leaf_hash tapSighashDefault
    if vtxo_key.public_key = claim.spec.user_pubkey then
      let sig := crypto.signSchnorr sighash vtxo_key
      let cb := claim.spec.exit_control_block
      .ok { inp with final_script_witness := some [sig, exit_script, cb.ser] }
    else
      .panic "assertion failed: public key mismatch"

/-- The round-reclamation spend-path tag attached by the enumerator and read
by the cosigner (`arkd`'s `psbtext::RoundMeta`). -/
inductive RoundMeta where
  | Vtxo
  | Connector
deriving DecidableEq, Repr

/-- Modelled from the spec: the proprietary-key namespace of the `arkd`
crate's own psbtext module (not under `src/`): the ASCII bytes of "arkd". -/
def PROP_KEY_ARKD : Bytes := [97, 114, 107, 100]

/-- Modelled from the spec: the round-meta proprietary key — fixed
namespace, a small integer subtype discriminant, empty key suffix. -/
def PROP_KEY_ROUND_META : PropKeyRaw := ⟨PROP_KEY_ARKD, 1, []⟩

/-- The discriminant byte of a round-meta kind. -/
def RoundMeta.toByte : RoundMeta → Nat
  | .Vtxo => 1
  | .Connector => 2

/-- Modelled from the spec: deterministic binary encoding of a round-meta
value — a kind discriminant byte followed by the 32-byte round txid. -/
def encodeRoundMeta (txid : Nat) (m : RoundMeta) : Bytes :=
  m.toByte :: natToBytesLE 32 txid

/-- Modelled from the spec: round-meta decoding; anything but a valid kind
byte followed by exactly 32 txid bytes is malformed. -/
def decodeRoundMeta : Bytes → Option (Nat × RoundMeta)
  | 1 :: rest => if rest.length = 32 then some (bytesToNatLE rest, .Vtxo) else none
  | 2 :: rest => if rest.length = 32 then some (bytesToNatLE rest, .Connector) else none
  | _ => none

/-- Modelled from the spec: `set_round_meta`, storing the encoded round tag
under the round-meta proprietary key. -/
def Input.set_round_meta (inp : Input) (txid : Nat) (m : RoundMeta) : Input :=
  { inp with
    proprietary := propInsert inp.proprietary PROP_KEY_ROUND_META (encodeRoundMeta txid m) }

/-- Modelled from the spec: `get_round_meta`, returning a recoverable
`Result`: absent key is `none`, a present-but-malformed value is a
corruption error (wrapped with context "corrupt psbt" at the call site). -/
def Input.get_round_meta (inp : Input) : Except String (Option (Nat × RoundMeta)) :=
  match propGet inp.proprietary PROP_KEY_ROUND_META with
  | none => .ok none
  | some bs =>
    match decodeRoundMeta bs with
    | some v => .ok (some v)
    | none => .error "invalid round meta"

/-- Modelled from the spec: `ark::tree::signed::NODE_SPEND_WEIGHT`, the
tree's fixed node-spend weight constant (the `ark` crate is not under
`src/`; its numeric value is not constrained by any claim). -/
def NODE_SPEND_WEIGHT : Nat := 140

/-- Modelled from the spec: `ark::connectors::INPUT_WEIGHT`, the fixed
connector input-weight constant (the `ark` crate is not under `src/`). -/
def INPUT_WEIGHT : Nat := 66

/-- Modelled from the spec: the vtxo-tree spec fields this core consumes —
aggregate cosign key and the expiry leaf's control block, script, leaf
version and merkle root (the `ark` crate is not under `src/`). -/
structure TreeSpec where
  cosign_agg_pk : Nat
  expiry_cb : ControlBlock
  expiry_script : Bytes
  expiry_lv : Nat
  expiry_merkle : Nat
deriving DecidableEq, Repr

/-- `expiry_scriptspend()`: the expiry leaf's script-path spend data. -/
def TreeSpec.expiry_scriptspend (s : TreeSpec) :
    ControlBlock × Bytes × Nat × Nat :=
  (s.expiry_cb, s.expiry_script, s.expiry_lv, s.expiry_merkle)

/-- A signed vtxo tree, reduced to its spec. -/
structure SignedTree where
  spec : TreeSpec
deriving DecidableEq, Repr

/-- A round record as persisted by the database collaborator: anchoring
transaction, signed tree, expiry height and whether reclamation outputs are
still unclaimed. -/
structure Round where
  tx : Transaction
  signed_tree : SignedTree
  expiry_height : Nat
  unclaimed : Bool
deriving DecidableEq, Repr

/-- The database collaborator, reduced to its round table (txid-keyed). -/
structure Db where
  rounds : List (Nat × Round)
deriving DecidableEq, Repr

/-- Key lookup in the round table (first binding wins, as in a real
txid-keyed map). -/
def lookupRound : List (Nat × Round) → Nat → Option Round
  | [], _ => none
  | p :: rest, t => if p.1 = t then some p.2 else lookupRound rest t

/-- Modelled from the spec: `Db::get_expired_rounds` (database module not
under `src/`) — the txids of all rounds whose expiry height is at most the
given height and which still have unclaimed reclamation outputs. -/
def Db.get_expired_rounds (db : Db) (height : Nat) : List Nat :=
  (db.rounds.filter (fun p => decide (p.2.expiry_height ≤ height) && p.2.unclaimed)).map
    (fun p => p.1)

/-- `Db::get_round`: fetch a round record by its txid. -/
def Db.get_round (db : Db) (txid : Nat) : Option Round :=
  lookupRound db.rounds txid

/-- Modelled from the spec: BDK wallet descriptors as arkd uses them — a
taproot descriptor that is either a single fixed key (no wildcard, as in
the `tr(xpriv)` descriptor `App::start` opens) or a derivable wildcard. -/
inductive Descriptor where
  | trSingle : Nat → Descriptor
  | trWildcard : Nat → Descriptor
deriving DecidableEq, Repr

/-- The onchain wallet state: its descriptor and next derivation index. -/
structure Wallet where
  descriptor : Descriptor
  next_index : Nat
deriving DecidableEq, Repr

/-- Modelled from the spec: BDK `try_get_address(AddressIndex::New)` — a
wildcard descriptor derives a fresh address and advances the index; a
non-wildcard descriptor always yields its single address and leaves the
wallet unchanged. -/
def Wallet.try_get_address_new (w : Wallet) : Nat × Wallet :=
  match w.descriptor with
  | .trSingle k => (k, w)
  | .trWildcard k =>
    (257 * (k + w.next_index) + w.next_index, { w with next_index := w.next_index + 1 })

/-- The service context: its long-lived signing key, the database and the
onchain wallet (other `App` fields are not consumed by the operations
embedded here). -/
structure App where
  master_key : Keypair
  db : Db
  wallet : Wallet
deriving DecidableEq, Repr

/-- An enumerated spendable UTXO: outpoint, partially-filled PSBT input and
declared witness weight. -/
structure SpendableUtxo where
  point : OutPoint
  psbt : Input
  weight : Nat
deriving DecidableEq, Repr

/-- The vtxo-tree root entry: witness utxo = round tx output 0,
`SIGHASH_DEFAULT`, aggregate cosign internal key, the expiry leaf's sole
tap-script entry, merkle root, full round tx, tag `Vtxo`, node-spend
weight. -/
def vtxoEntry (txid : Nat) (round : Round) (o0 : TxOut) : SpendableUtxo :=
  let sp := round.signed_tree.spec.expiry_scriptspend
  let in0 : Input :=
    { Input.default with
      witness_utxo := some o0
      sighash_type := some tapSighashDefault
      tap_internal_key := some round.signed_tree.spec.cosign_agg_pk
      tap_scripts := [(sp.1, sp.2.1, sp.2.2.1)]
      tap_merkle_root := some sp.2.2.2
      non_witness_utxo := some round.tx }
  ⟨⟨txid, 0⟩, in0.set_round_meta txid .Vtxo, NODE_SPEND_WEIGHT⟩

/-- The connector entry: witness utxo = round tx output 1,
`SIGHASH_DEFAULT`, service internal key, full round tx, tag `Connector`,
connector input weight. -/
def connectorEntry (pk : Nat) (txid : Nat) (round : Round) (o1 : TxOut) :
    SpendableUtxo :=
  let in1 : Input :=
    { Input.default with
      witness_utxo := some o1
      sighash_type := some tapSighashDefault
      tap_internal_key := some pk
      non_witness_utxo := some round.tx }
  ⟨⟨txid, 1⟩, in1.set_round_meta txid .Connector, INPUT_WEIGHT⟩

/-- The two `SpendableUtxo` entries `App::spendable_expired_vtxos` builds
for one expired round, or `none` when the round transaction has fewer than
two outputs (in which case the Rust output indexing would abort). -/
def roundEntries (pk : Nat) (txid : Nat) (round : Round) :
    Option (List SpendableUtxo) :=
  match round.tx.output with
  | o0 :: o1 :: _ =>
    some [vtxoEntry txid round o0, connectorEntry pk txid round o1]
  | _ => none

/-- The loop body of `App::spendable_expired_vtxos`: for each expired round
txid, fetch the round (`.expect("db has round")` aborts when absent), build
its two entries, and append in round order. -/
def spendableGo (pk : Nat) (db : Db) : List Nat → PanicOr (List SpendableUtxo)
  | [] => .ok []
  | txid :: rest =>
    match db.get_round txid with
    | none => .panic "db has round"
    | some round =>
      match roundEntries pk txid round with
      | none => .panic "index out of bounds"
      | some es =>
        match spendableGo pk db rest with
        | .ok l => .ok (es ++ l)
        | .panic m => .panic m

/-- `App::spendable_expired_vtxos`: enumerate the reclamation-path UTXOs of
all rounds expired at the given height. -/
def App.spendable_expired_vtxos (app : App) (height : Nat) :
    PanicOr (List SpendableUtxo) :=
  spendableGo app.master_key.public_key app.db (app.db.get_expired_rounds height)

/-- The per-round entry list as a total function (empty on the dead branches
the enumeration loop would abort on); the enumeration result is the
round-major concatenation of these. -/
def entriesOf (pk : Nat) (db : Db) (t : Nat) : List SpendableUtxo :=
  match db.get_round t with
  | none => []
  | some r => (roundEntries pk t r).getD []

/-- Result of `App::sign_round_utxo_inputs` on a `&mut` PSBT: success or a
recoverable error both return the input list with whatever in-place witness
mutations happened before the return; a panic (the prevout `unwrap`) aborts
the process before any mutation. -/
inductive SignResult where
  | ok : List Input → SignResult
  | err : String → List Input → SignResult
  | panic : String → SignResult
deriving DecidableEq, Repr

/-- The prevout list built by `psbt.inputs.iter().map(|i|
i.witness_utxo.clone().unwrap())`: `none` means some input lacks a witness
utxo and the `unwrap` aborts. -/
def collectPrevouts : List Input → Option (List TxOut)
  | [] => some []
  | i :: rest =>
    match i.witness_utxo with
    | none => none
    | some u => (collectPrevouts rest).map (fun l => u :: l)

/-- The witness utxos of a PSBT input list (total form, defaulting the
absent case). -/
def psbtPrevouts (l : List Input) : List TxOut :=
  l.map (fun i => i.witness_utxo.getD ⟨0, []⟩)

/-- One iteration of the `sign_round_utxo_inputs` loop on the input at
absolute index `idx`: untagged inputs pass through unchanged; a `Vtxo` tag
takes the sole tap-script entry (missing entry is the corruption error),
script-path signs under `SIGHASH_DEFAULT` with the service key and sets the
witness `[signature, script, serialized control block]`; a `Connector` tag
key-path signs under `SIGHASH_DEFAULT` with the keyspend-tweaked service key
and sets the witness `[signature]`; a malformed round tag is the corruption
error. The witness-length `debug_assert_eq!` is compiled out in release
builds and has no effect here. -/
def signStep (c : Crypto) (master : Keypair) (tx : Transaction)
    (pv : List TxOut) (idx : Nat) (inp : Input) : Except String Input :=
  match inp.get_round_meta with
  | .error _ => .error "corrupt psbt"
  | .ok none => .ok inp
  | .ok (some (_, .Vtxo)) =>
    match inp.tap_scripts with
    | [] => .error "corrupt psbt: missing tap_scripts"
    | (cb, script, lv) :: _ =>
      let sighash :=
        c.scriptSpendSighash tx pv idx (c.tapLeafHash script lv) tapSighashDefault
      .ok { inp with
        final_script_witness := some [c.signSchnorr sighash master, script, cb.ser] }
  | .ok (some (_, .Connector)) =>
    let sighash := c.keySpendSighash tx pv idx tapSighashDefault
    .ok { inp with
      final_script_witness := some [c.signSchnorr sighash (c.for_keyspend master)] }

/-- Prepend an already-processed input to a loop result, keeping the error
payload (the `&mut` PSBT keeps mutations made before an error return). -/
def consResult (inp : Input) : SignResult → SignResult
  | .ok l => .ok (inp :: l)
  | .err m l => .err m (inp :: l)
  | .panic m => .panic m

/-- The `sign_round_utxo_inputs` loop: process inputs in index order,
stopping at the first failing step; inputs from the failing one on are left
as they were. -/
def signLoop (c : Crypto) (master : Keypair) (tx : Transaction)
    (pv : List TxOut) : Nat → List Input → SignResult
  | _, [] => .ok []
  | idx, inp :: rest =>
    match signStep c master tx pv idx inp with
    | .error m => .err m (inp :: rest)
    | .ok inp2 => consResult inp2 (signLoop c master tx pv (idx + 1) rest)

/-- `App::sign_round_utxo_inputs`: build the prevout list (aborting on any
missing witness utxo), then sign every round-tagged input in place. -/
def App.sign_round_utxo_inputs (c : Crypto) (app : App) (psbt : Psbt) :
    SignResult :=
  match collectPrevouts psbt.inputs with
  | none => .panic "unwrap on None"
  | some pv => signLoop c app.master_key psbt.unsigned_tx pv 0 psbt.inputs

/-- `App::onchain_address`: take the wallet lock and ask BDK for a new
address (the release build drops the `debug_assert_eq!` re-query). -/
def App.onchain_address (app : App) : Nat × App :=
  let r := app.wallet.try_get_address_new
  (r.1, { app with wallet := r.2 })

/-- A concrete crypto instance for evaluating the model on closed inputs:
constant all-zero 64-byte signatures, zero hashes, successor key tweak. -/
def cryptoZ : Crypto :=
  { signSchnorr := fun _ _ => List.replicate 64 0
    tapLeafHash := fun _ _ => 0
    scriptSpendSighash := fun _ _ _ _ _ => 0
    keySpendSighash := fun _ _ _ _ => 0
    for_keyspend := fun k => ⟨k.sk + 1⟩
    sig_len := fun _ _ => by simp }

/-- A concrete legal claim value. -/
def exClaim : ClaimInput := ⟨⟨5, 6, 7, 8, 9⟩⟩

/-- A PSBT input tagged with `exClaim`. -/
def exClaimIn : Input := Input.default.set_claim_input exClaim

/-- A PSBT input whose claim proprietary key holds undecodable bytes. -/
def corruptClaimIn : Input :=
  { Input.default with proprietary := [(PROP_KEY_CLAIM_INPUT, [0])] }

/-- A trivial unsigned transaction. -/
def tx0 : Transaction := ⟨0, []⟩

/-- A concrete service context with an empty database. -/
def appW : App := ⟨⟨3⟩, ⟨[]⟩, ⟨.trSingle 11, 0⟩⟩

/-- A connector-tagged PSBT input with its witness utxo populated. -/
def connIn : Input :=
  ({ Input.default with witness_utxo := some ⟨1000, []⟩ }).set_round_meta 7 .Connector

/-- A PSBT holding only the connector-tagged input. -/
def psbtConn : Psbt := ⟨tx0, [connIn]⟩

/-- What cosigning `psbtConn` under `cryptoZ` produces. -/
def outsConn : List Input :=
  [{ connIn with final_script_witness := some [List.replicate 64 0] }]

/-- An untagged PSBT input with its witness utxo populated. -/
def plainIn : Input := { Input.default with witness_utxo := some ⟨500, [1, 2]⟩ }

/-- A PSBT holding only the untagged input. -/
def psbtPlain : Psbt := ⟨tx0, [plainIn]⟩

/-- A `Vtxo`-tagged PSBT input with no tap-script entry (corrupt). -/
def vtxoBad : Input :=
  ({ Input.default with witness_utxo := some ⟨2000, []⟩ }).set_round_meta 9 .Vtxo

/-- A PSBT whose second input is the corrupt `Vtxo` input, preceded by a
signable connector input. -/
def psbtCorrupt : Psbt := ⟨tx0, [connIn, vtxoBad]⟩

/-- The mutated input list `sign_round_utxo_inputs` leaves behind when it
fails on `psbtCorrupt`: the connector input is already signed. -/
def outsCorrupt : List Input :=
  [{ connIn with final_script_witness := some [List.replicate 64 0] }, vtxoBad]

/-- A PSBT with one untagged input lacking its witness utxo. -/
def noWitPsbt : Psbt := ⟨tx0, [Input.default]⟩

/-- A concrete tree spec. -/
def treeX : TreeSpec := ⟨21, ⟨[22]⟩, [23], 192, 24⟩

/-- A concrete unclaimed round with expiry height 100 and two outputs. -/
def roundX : Round := ⟨⟨7, [⟨50000, [81]⟩, ⟨1000, [82]⟩]⟩, ⟨treeX⟩, 100, true⟩

/-- A concrete service context whose database holds `roundX` under txid 7. -/
def appR : App := ⟨⟨3⟩, ⟨[(7, roundX)]⟩, ⟨.trSingle 11, 0⟩⟩

theorem natToBytesLE_length (k n : Nat) : (natToBytesLE k n).length = k := by
  induction k generalizing n with
  | zero => rfl
  | succ k ih => simp [natToBytesLE, ih]

theorem bytesToNatLE_natToBytesLE (k n : Nat) (h : n < 256 ^ k) :
    bytesToNatLE (natToBytesLE k n) = n := by
  induction k generalizing n with
  | zero =>
    simp only [pow_zero, Nat.lt_one_iff] at h
    simp [natToBytesLE, bytesToNatLE, h]
  | succ k ih =>
    have hdiv : n / 256 < 256 ^ k := by
      apply Nat.div_lt_of_lt_mul
      calc n < 256 ^ (k + 1) := h
        _ = 256 * 256 ^ k := by ring
    simp only [natToBytesLE, bytesToNatLE, ih (n / 256) hdiv]
    omega

theorem take_append_len {α : Type} (l₁ l₂ : List α) (w : Nat)
    (h : l₁.length = w) : (l₁ ++ l₂).take w = l₁ := by
  subst h; simp

theorem drop_append_len {α : Type} (l₁ l₂ : List α) (w : Nat)
    (h : l₁.length = w) : (l₁ ++ l₂).drop w = l₂ := by
  subst h; simp

theorem propGet_propInsert (m : List (PropKeyRaw × Bytes)) (k : PropKeyRaw)
    (v : Bytes) : propGet (propInsert m k v) k = some v := by
  induction m with
  | nil => simp [propInsert, propGet]
  | cons p rest ih =>
    by_cases hp : p.1 = k
    · simp [propInsert, hp, propGet]
    · simp [propInsert, hp, propGet, ih]

theorem ClaimInput.decode_encode (c : ClaimInput) (h : legalClaim c) :
    ClaimInput.decode c.encode = some c := by
  obtain ⟨⟨u, a, e, d, m⟩⟩ := c
  obtain ⟨h1, h2, h3, h4, h5⟩ := h
  have hlen : (ClaimInput.encode ⟨⟨u, a, e, d, m⟩⟩).length = 160 := by
    simp [ClaimInput.encode, natToBytesLE_length]
  unfold ClaimInput.decode
  rw [if_pos hlen]
  have s1t := take_append_len (natToBytesLE 32 u)
    (natToBytesLE 32 a ++ (natToBytesLE 32 e ++ (natToBytesLE 32 d ++ natToBytesLE 32 m)))
    32 (natToBytesLE_length 32 u)
  have s1d := drop_append_len (natToBytesLE 32 u)
    (natToBytesLE 32 a ++ (natToBytesLE 32 e ++ (natToBytesLE 32 d ++ natToBytesLE 32 m)))
    32 (natToBytesLE_length 32 u)
  have s2t := take_append_len (natToBytesLE 32 a)
    (natToBytesLE 32 e ++ (natToBytesLE 32 d ++ natToBytesLE 32 m))
    32 (natToBytesLE_length 32 a)
  have s2d := drop_append_len (natToBytesLE 32 a)
    (natToBytesLE 32 e ++ (natToBytesLE 32 d ++ natToBytesLE 32 m))
    32 (natToBytesLE_length 32 a)
  have s3t := take_append_len (natToBytesLE 32 e)
    (natToBytesLE 32 d ++ natToBytesLE 32 m) 32 (natToBytesLE_length 32 e)
  have s3d := drop_append_len (natToBytesLE 32 e)
    (natToBytesLE 32 d ++ natToBytesLE 32 m) 32 (natToBytesLE_length 32 e)
  have s4t := take_append_len (natToBytesLE 32 d) (natToBytesLE 32 m)
    32 (natToBytesLE_length 32 d)
  have s4d := drop_append_len (natToBytesLE 32 d) (natToBytesLE 32 m)
    32 (natToBytesLE_length 32 d)
  simp only [ClaimInput.encode] at s1t s1d ⊢
  simp only [s1t, s1d, s2t, s2d, s3t, s3d, s4t, s4d,
    bytesToNatLE_natToBytesLE 32 u h1, bytesToNatLE_natToBytesLE 32 a h2,
    bytesToNatLE_natToBytesLE 32 e h3, bytesToNatLE_natToBytesLE 32 d h4,
    bytesToNatLE_natToBytesLE 32 m h5]

/-- C5: the `ClaimInput` metadata codec is reversible — for every legal
claim value `v` and every PSBT input, `get_claim_input` after
`set_claim_input v` returns `Some v`; and on a freshly constructed PSBT
input with no tag set, `get_claim_input` returns `None`. -/
theorem claim_input_codec_roundtrip (v : ClaimInput) (h : legalClaim v) :
    (∀ inp : Input,
      (inp.set_claim_input v).get_claim_input = PanicOr.ok (some v)) ∧
    Input.default.get_claim_input = PanicOr.ok none := by
  refine ⟨fun inp => ?_, rfl⟩
  simp [Input.get_claim_input, Input.set_claim_input, propGet_propInsert,
    ClaimInput.decode_encode v h]

/-- C5 witness: the round-trip at a concrete legal claim value. -/
theorem claim_input_codec_roundtrip_witness :
    legalClaim exClaim ∧
    ((∀ inp : Input,
      (inp.set_claim_input exClaim).get_claim_input = PanicOr.ok (some exClaim)) ∧
    Input.default.get_claim_input = PanicOr.ok none) :=
  ⟨by decide, claim_input_codec_roundtrip exClaim (by decide)⟩

/-- C6 counterexample: the claim says a present-but-undecodable claim tag
yields a recoverable corruption error; in the code `get_claim_input` hits
`.expect("corrupt psbt")` instead, which aborts the process — modelled by
the `PanicOr.panic` outcome, not a recoverable value. -/
theorem get_claim_input_corrupt_counterexample :
    Input.get_claim_input corruptClaimIn = PanicOr.panic "corrupt psbt" := by
  rfl

/-- C6 amended: for every PSBT input whose claim proprietary key is present
but holds bytes that do not decode, `get_claim_input` panics with "corrupt
psbt" (a process crash, as the source's TODO comment acknowledges), rather
than returning a recoverable error; an absent key still gives `None`. -/
theorem get_claim_input_corrupt_panics (inp : Input) (bs : Bytes)
    (hget : propGet inp.proprietary PROP_KEY_CLAIM_INPUT = some bs)
    (hdec : ClaimInput.decode bs = none) :
    inp.get_claim_input = PanicOr.panic "corrupt psbt" := by
  simp [Input.get_claim_input, hget, hdec]

/-- C6 amended witness: the panic at the concrete corrupt input. -/
theorem get_claim_input_corrupt_panics_witness :
    propGet corruptClaimIn.proprietary PROP_KEY_CLAIM_INPUT = some [0] ∧
    ClaimInput.decode [0] = none ∧
    Input.get_claim_input corruptClaimIn = PanicOr.panic "corrupt psbt" :=
  ⟨by decide, by decide,
    get_claim_input_corrupt_panics corruptClaimIn [0] (by decide) (by decide)⟩

theorem exit_clause_length (s : VtxoSpec) : s.exit_clause.length = 34 := by
  simp [VtxoSpec.exit_clause, natToBytesLE_length]

theorem exit_control_block_length (s : VtxoSpec) :
    s.exit_control_block.ser.length = 33 := by
  simp [VtxoSpec.exit_control_block, natToBytesLE_length]

/-- C7: on a PSBT input carrying a claim tag whose recorded user public key
matches the supplied keypair, `try_sign_claim_input` sets the final witness
to the three elements `[signature, script, control block]` derived from the
claim's exit clause (script-path sighash under `SIGHASH_DEFAULT`), and the
witness's serialized size equals the claim's precomputed satisfaction
weight; a key mismatch aborts (`assert_eq!`) instead of producing a
witness. -/
theorem try_sign_claim_input_signs (crypto : Crypto) (inp : Input)
    (tx : Transaction) (prevouts : List TxOut) (idx : Nat) (key : Keypair)
    (claim : ClaimInput)
    (hget : inp.get_claim_input = PanicOr.ok (some claim)) :
    (key.public_key = claim.spec.user_pubkey →
      inp.try_sign_claim_input crypto tx prevouts idx key =
        PanicOr.ok { inp with final_script_witness := some [crypto.signSchnorr (crypto.scriptSpendSighash tx prevouts idx (crypto.tapLeafHash claim.spec.exit_clause leafVersionTapScript) tapSighashDefault) key, claim.spec.exit_clause, claim.spec.exit_control_block.ser] } ∧
      witnessSerializedSize
        [crypto.signSchnorr
          (crypto.scriptSpendSighash tx prevouts idx
            (crypto.tapLeafHash claim.spec.exit_clause leafVersionTapScript)
            tapSighashDefault) key,
         claim.spec.exit_clause, claim.spec.exit_control_block.ser] =
        claim.satisfaction_weight) ∧
    (key.public_key ≠ claim.spec.user_pubkey →
      inp.try_sign_claim_input crypto tx prevouts idx key =
        PanicOr.panic "assertion failed: public key mismatch") := by
  refine ⟨fun hk => ⟨?_, ?_⟩, fun hk => ?_⟩
  · simp [Input.try_sign_claim_input, hget, hk]
  · simp [witnessSerializedSize, ClaimInput.satisfaction_weight, varintLen,
      crypto.sig_len, exit_clause_length, exit_control_block_length]
  · simp [Input.try_sign_claim_input, hget, hk]

/-- C7 witness: signing at a concrete tagged input with the matching key. -/
theorem try_sign_claim_input_signs_witness :
    Input.try_sign_claim_input cryptoZ exClaimIn tx0 [] 0 ⟨5⟩ =
      PanicOr.ok { exClaimIn with final_script_witness := some [List.replicate 64 0, exClaim.spec.exit_clause, exClaim.spec.exit_control_block.ser] } := by
  have h :=
    try_sign_claim_input_signs cryptoZ exClaimIn tx0 [] 0 ⟨5⟩ exClaim (by decide)
  exact (h.1 (by decide)).1

/-- C8: on a PSBT input carrying no claim tag, `try_sign_claim_input` is a
no-op — it returns without error and leaves the input unchanged. -/
theorem try_sign_claim_input_noop (crypto : Crypto) (inp : Input)
    (tx : Transaction) (prevouts : List TxOut) (idx : Nat) (key : Keypair)
    (h : propGet inp.proprietary PROP_KEY_CLAIM_INPUT = none) :
    inp.try_sign_claim_input crypto tx prevouts idx key = PanicOr.ok inp := by
  simp [Input.try_sign_claim_input, Input.get_claim_input, h]

/-- C8 witness: the no-op at a concrete untagged input. -/
theorem try_sign_claim_input_noop_witness :
    propGet Input.default.proprietary PROP_KEY_CLAIM_INPUT = none ∧
    Input.try_sign_claim_input cryptoZ Input.default tx0 [] 0 ⟨1⟩ =
      PanicOr.ok Input.default :=
  ⟨by decide, try_sign_claim_input_noop cryptoZ Input.default tx0 [] 0 ⟨1⟩ (by decide)⟩

theorem decodeRoundMeta_encodeRoundMeta (txid : Nat) (m : RoundMeta)
    (h : txid < 256 ^ 32) :
    decodeRoundMeta (encodeRoundMeta txid m) = some (txid, m) := by
  cases m <;>
    simp [encodeRoundMeta, decodeRoundMeta, RoundMeta.toByte, natToBytesLE_length,
      bytesToNatLE_natToBytesLE 32 txid h]

theorem get_round_meta_set_round_meta (inp : Input) (t : Nat) (m : RoundMeta)
    (h : t < 256 ^ 32) :
    (inp.set_round_meta t m).get_round_meta = Except.ok (some (t, m)) := by
  simp [Input.get_round_meta, Input.set_round_meta, propGet_propInsert,
    decodeRoundMeta_encodeRoundMeta t m h]

theorem lookupRound_of_mem (l : List (Nat × Round)) (t : Nat) (r : Round)
    (hnd : (l.map Prod.fst).Nodup) (hm : (t, r) ∈ l) :
    lookupRound l t = some r := by
  induction l with
  | nil => cases hm
  | cons p rest ih =>
    simp only [List.map_cons, List.nodup_cons] at hnd
    rcases List.mem_cons.mp hm with h | h
    · rw [← h]
      simp [lookupRound]
    · have hne : p.1 ≠ t := by
        intro he
        exact hnd.1 (he ▸ List.mem_map_of_mem Prod.fst h)
      simp [lookupRound, hne, ih hnd.2 h]

theorem of_mem_get_expired_rounds (db : Db) (height t : Nat)
    (h : t ∈ db.get_expired_rounds height) :
    ∃ r, (t, r) ∈ db.rounds ∧ r.expiry_height ≤ height ∧ r.unclaimed = true := by
  simp only [Db.get_expired_rounds, List.mem_map, List.mem_filter,
    Bool.and_eq_true, decide_eq_true_eq] at h
  obtain ⟨p, ⟨hp, hexp, hcl⟩, hfst⟩ := h
  exact ⟨p.2, by rw [← hfst]; exact hp, hexp, hcl⟩

theorem exists_cons_cons_of_two_le {α : Type} (l : List α) (h : 2 ≤ l.length) :
    ∃ a b tl, l = a :: b :: tl := by
  cases l with
  | nil => simp at h
  | cons a l' =>
    cases l' with
    | nil => simp at h
    | cons b tl => exact ⟨a, b, tl, rfl⟩

theorem roundEntries_spec (pk t : Nat) (r : Round)
    (h2 : 2 ≤ r.tx.output.length) (ht : t < 256 ^ 32) :
    ∃ e0 e1, roundEntries pk t r = some [e0, e1] ∧
      e0.point = ⟨t, 0⟩ ∧
      e0.psbt.get_round_meta = Except.ok (some (t, RoundMeta.Vtxo)) ∧
      e0.weight = NODE_SPEND_WEIGHT ∧
      e1.point = ⟨t, 1⟩ ∧
      e1.psbt.get_round_meta = Except.ok (some (t, RoundMeta.Connector)) ∧
      e1.weight = INPUT_WEIGHT := by
  obtain ⟨o0, o1, tl, hl⟩ := exists_cons_cons_of_two_le _ h2
  refine ⟨vtxoEntry t r o0, connectorEntry pk t r o1, ?_, ?_, ?_, ?_, ?_, ?_, ?_⟩
  · simp only [roundEntries, hl]
  · rfl
  · exact get_round_meta_set_round_meta _ t RoundMeta.Vtxo ht
  · rfl
  · rfl
  · exact get_round_meta_set_round_meta _ t RoundMeta.Connector ht
  · rfl

theorem spendableGo_ok (pk : Nat) (db : Db) (ts : List Nat)
    (h : ∀ t ∈ ts, ∃ r es,
      db.get_round t = some r ∧ roundEntries pk t r = some es) :
    spendableGo pk db ts = PanicOr.ok (ts.flatMap (entriesOf pk db)) := by
  induction ts with
  | nil => rfl
  | cons t rest ih =>
    obtain ⟨r, es, hr, he⟩ := h t (List.mem_cons_self t rest)
    have ihh := ih (fun u hu => h u (List.mem_cons_of_mem _ hu))
    simp [spendableGo, hr, he, ihh, entriesOf]

/-- C1: for every height, `spendable_expired_vtxos` emits exactly two
entries per expired round — first the vtxo-tree root entry with outpoint
`(round_txid, 0)`, tagged `RoundMeta::Vtxo`, with the node-spend weight
constant, then the connector entry with outpoint `(round_txid, 1)`, tagged
`RoundMeta::Connector`, with the connector input-weight constant — each of
those rounds has expiry height at most the given height, and the result is
the round-major concatenation with index 0 before index 1. Hypotheses state
database well-formedness: distinct round txids, 32-byte txids, and round
transactions with at least two outputs. -/
theorem spendable_expired_vtxos_spec (app : App) (height : Nat)
    (hnd : (app.db.rounds.map Prod.fst).Nodup)
    (hout : ∀ p ∈ app.db.rounds, 2 ≤ p.2.tx.output.length)
    (htx : ∀ p ∈ app.db.rounds, p.1 < 256 ^ 32) :
    app.spendable_expired_vtxos height =
      PanicOr.ok ((app.db.get_expired_rounds height).flatMap
        (entriesOf app.master_key.public_key app.db)) ∧
    ∀ t ∈ app.db.get_expired_rounds height, ∃ r,
      app.db.get_round t = some r ∧ r.expiry_height ≤ height ∧
      ∃ e0 e1, entriesOf app.master_key.public_key app.db t = [e0, e1] ∧
        e0.point = ⟨t, 0⟩ ∧
        e0.psbt.get_round_meta = Except.ok (some (t, RoundMeta.Vtxo)) ∧
        e0.weight = NODE_SPEND_WEIGHT ∧
        e1.point = ⟨t, 1⟩ ∧
        e1.psbt.get_round_meta = Except.ok (some (t, RoundMeta.Connector)) ∧
        e1.weight = INPUT_WEIGHT := by
  have hmem : ∀ t ∈ app.db.get_expired_rounds height, ∃ r,
      app.db.get_round t = some r ∧ r.expiry_height ≤ height ∧ (t, r) ∈ app.db.rounds := by
    intro t ht
    obtain ⟨r, hr, hexp, _⟩ := of_mem_get_expired_rounds app.db height t ht
    exact ⟨r, lookupRound_of_mem app.db.rounds t r hnd hr, hexp, hr⟩
  constructor
  · apply spendableGo_ok
    intro t ht
    obtain ⟨r, hr, _, hmem'⟩ := hmem t ht
    obtain ⟨e0, e1, he, _⟩ :=
      roundEntries_spec app.master_key.public_key t r (hout _ hmem') (htx _ hmem')
    exact ⟨r, [e0, e1], hr, he⟩
  · intro t ht
    obtain ⟨r, hr, hexp, hmem'⟩ := hmem t ht
    obtain ⟨e0, e1, he, p0, m0, w0, p1, m1, w1⟩ :=
      roundEntries_spec app.master_key.public_key t r (hout _ hmem') (htx _ hmem')
    refine ⟨r, hr, hexp, e0, e1, ?_, p0, m0, w0, p1, m1, w1⟩
    simp [entriesOf, hr, he]

/-- C1 witness: the enumeration at height 101 over a database holding one
expired round. -/
theorem spendable_expired_vtxos_spec_witness :
    ((appR.db.rounds.map Prod.fst).Nodup ∧
      (∀ p ∈ appR.db.rounds, 2 ≤ p.2.tx.output.length) ∧
      (∀ p ∈ appR.db.rounds, p.1 < 256 ^ 32)) ∧
    (appR.spendable_expired_vtxos 101 =
      PanicOr.ok ((appR.db.get_expired_rounds 101).flatMap
        (entriesOf appR.master_key.public_key appR.db)) ∧
    ∀ t ∈ appR.db.get_expired_rounds 101, ∃ r,
      appR.db.get_round t = some r ∧ r.expiry_height ≤ 101 ∧
      ∃ e0 e1, entriesOf appR.master_key.public_key appR.db t = [e0, e1] ∧
        e0.point = ⟨t, 0⟩ ∧
        e0.psbt.get_round_meta = Except.ok (some (t, RoundMeta.Vtxo)) ∧
        e0.weight = NODE_SPEND_WEIGHT ∧
        e1.point = ⟨t, 1⟩ ∧
        e1.psbt.get_round_meta = Except.ok (some (t, RoundMeta.Connector)) ∧
        e1.weight = INPUT_WEIGHT) :=
  ⟨⟨by decide, by decide, by decide⟩,
    spendable_expired_vtxos_spec appR 101 (by decide) (by decide) (by decide)⟩

theorem collectPrevouts_none (l : List Input)
    (h : ∃ i ∈ l, i.witness_utxo = none) : collectPrevouts l = none := by
  induction l with
  | nil => obtain ⟨i, hi, _⟩ := h; cases hi
  | cons j rest ih =>
    obtain ⟨i, hi, hw⟩ := h
    rcases List.mem_cons.mp hi with rfl | hi'
    · simp [collectPrevouts, hw]
    · cases hjj : j.witness_utxo with
      | none => simp [collectPrevouts, hjj]
      | some v => simp [collectPrevouts, hjj, ih ⟨i, hi', hw⟩]

theorem collectPrevouts_some_eq (l : List Input) (pv : List TxOut)
    (h : collectPrevouts l = some pv) : pv = psbtPrevouts l := by
  induction l generalizing pv with
  | nil =>
    simp [collectPrevouts] at h
    simp [psbtPrevouts, ← h]
  | cons i rest ih =>
    cases hw : i.witness_utxo with
    | none => rw [collectPrevouts, hw] at h; cases h
    | some u =>
      rw [collectPrevouts, hw] at h
      obtain ⟨pv', hpv', rfl⟩ := Option.map_eq_some'.mp h
      simp [psbtPrevouts, hw, ih pv' hpv']

theorem collectPrevouts_eq (l : List Input)
    (h : ∀ i ∈ l, i.witness_utxo.isSome = true) :
    collectPrevouts l = some (psbtPrevouts l) := by
  induction l with
  | nil => rfl
  | cons i rest ih =>
    obtain ⟨u, hu⟩ := Option.isSome_iff_exists.mp (h i (List.mem_cons_self i rest))
    simp [collectPrevouts, psbtPrevouts, hu,
      ih (fun j hj => h j (List.mem_cons_of_mem _ hj))]

theorem signStep_none_inv (c : Crypto) (master : Keypair) (tx : Transaction)
    (pv : List TxOut) (idx : Nat) (inp o : Input)
    (hm : inp.get_round_meta = Except.ok none)
    (hs : signStep c master tx pv idx inp = Except.ok o) : o = inp := by
  unfold signStep at hs
  rw [hm] at hs
  simp at hs
  exact hs.symm

theorem signStep_vtxo_inv (c : Crypto) (master : Keypair) (tx : Transaction)
    (pv : List TxOut) (idx : Nat) (inp o : Input) (r : Nat)
    (hm : inp.get_round_meta = Except.ok (some (r, RoundMeta.Vtxo)))
    (hs : signStep c master tx pv idx inp = Except.ok o) :
    ∃ cb s lv tl, inp.tap_scripts = (cb, s, lv) :: tl ∧
      o = { inp with final_script_witness := some [c.signSchnorr (c.scriptSpendSighash tx pv idx (c.tapLeafHash s lv) tapSighashDefault) master, s, cb.ser] } := by
  unfold signStep at hs
  rw [hm] at hs
  cases hts : inp.tap_scripts with
  | nil => rw [hts] at hs; cases hs
  | cons hd tl =>
    obtain ⟨cb, s, lv⟩ := hd
    rw [hts] at hs
    simp at hs
    exact ⟨cb, s, lv, tl, rfl, hs.symm⟩

theorem signStep_connector_inv (c : Crypto) (master : Keypair)
    (tx : Transaction) (pv : List TxOut) (idx : Nat) (inp o : Input) (r : Nat)
    (hm : inp.get_round_meta = Except.ok (some (r, RoundMeta.Connector)))
    (hs : signStep c master tx pv idx inp = Except.ok o) :
    o = { inp with final_script_witness := some [c.signSchnorr (c.keySpendSighash tx pv idx tapSighashDefault) (c.for_keyspend master)] } := by
  unfold signStep at hs
  rw [hm] at hs
  simp at hs
  exact hs.symm

theorem signStep_frame (c : Crypto) (master : Keypair) (tx : Transaction)
    (pv : List TxOut) (idx : Nat) (inp o : Input)
    (hs : signStep c master tx pv idx inp = Except.ok o) :
    ∃ w, o = { inp with final_script_witness := w } := by
  cases hm : inp.get_round_meta with
  | error e => unfold signStep at hs; rw [hm] at hs; cases hs
  | ok v =>
    cases v with
    | none =>
      exact ⟨inp.final_script_witness, by rw [signStep_none_inv c master tx pv idx inp o hm hs]⟩
    | some p =>
      obtain ⟨r, m⟩ := p
      cases m with
      | Vtxo =>
        obtain ⟨cb, s, lv, tl, _, ho⟩ := signStep_vtxo_inv c master tx pv idx inp o r hm hs
        exact ⟨_, ho⟩
      | Connector =>
        exact ⟨_, signStep_connector_inv c master tx pv idx inp o r hm hs⟩

theorem signLoop_ok_spec (c : Crypto) (master : Keypair) (tx : Transaction)
    (pv : List TxOut) :
    ∀ (inputs : List Input) (idx : Nat) (outs : List Input),
      signLoop c master tx pv idx inputs = SignResult.ok outs →
      outs.length = inputs.length ∧
      ∀ j, j < inputs.length →
        signStep c master tx pv (idx + j) (inputs.getD j Input.default) =
          Except.ok (outs.getD j Input.default) := by
  intro inputs
  induction inputs with
  | nil =>
    intro idx outs h
    simp [signLoop] at h
    subst h
    exact ⟨rfl, fun j hj => absurd hj (by simp)⟩
  | cons inp rest ih =>
    intro idx outs h
    rw [signLoop] at h
    cases hs : signStep c master tx pv idx inp with
    | error m => rw [hs] at h; cases h
    | ok inp2 =>
      rw [hs] at h
      cases hr : signLoop c master tx pv (idx + 1) rest with
      | ok l =>
        rw [hr] at h
        simp [consResult] at h
        subst h
        obtain ⟨hlen, hall⟩ := ih (idx + 1) l hr
        refine ⟨by simp [hlen], fun j hj => ?_⟩
        cases j with
        | zero => simpa using hs
        | succ j' =>
          have harith : idx + (j' + 1) = (idx + 1) + j' := by omega
          rw [harith, List.getD_cons_succ, List.getD_cons_succ]
          exact hall j' (by simpa using hj)
      | err m l => rw [hr] at h; simp [consResult] at h
      | panic m => rw [hr] at h; simp [consResult] at h

theorem signLoop_err_spec (c : Crypto) (master : Keypair) (tx : Transaction)
    (pv : List TxOut) :
    ∀ (inputs : List Input) (idx k : Nat) (msg : String),
      k < inputs.length →
      (∀ j, j < k → ∃ o,
        signStep c master tx pv (idx + j) (inputs.getD j Input.default) = Except.ok o) →
      signStep c master tx pv (idx + k) (inputs.getD k Input.default) = Except.error msg →
      ∃ outs, signLoop c master tx pv idx inputs = SignResult.err msg outs ∧
        outs.length = inputs.length ∧
        (∀ j, k ≤ j → outs.getD j Input.default = inputs.getD j Input.default) ∧
        (∀ j, j < k →
          signStep c master tx pv (idx + j) (inputs.getD j Input.default) =
            Except.ok (outs.getD j Input.default)) := by
  intro inputs
  induction inputs with
  | nil => intro idx k msg hk _ _; simp at hk
  | cons inp rest ih =>
    intro idx k msg hk hpre herr
    cases k with
    | zero =>
      have herr' : signStep c master tx pv idx inp = Except.error msg := by
        simpa using herr
      refine ⟨inp :: rest, ?_, rfl, fun j _ => rfl, fun j hj => absurd hj (by simp)⟩
      rw [signLoop, herr']
    | succ k' =>
      obtain ⟨o, ho⟩ := hpre 0 (by omega)
      have ho' : signStep c master tx pv idx inp = Except.ok o := by simpa using ho
      have hpre' : ∀ j, j < k' → ∃ o2,
          signStep c master tx pv ((idx + 1) + j) (rest.getD j Input.default) =
            Except.ok o2 := by
        intro j hj
        obtain ⟨o2, ho2⟩ := hpre (j + 1) (by omega)
        refine ⟨o2, ?_⟩
        have harith : (idx + 1) + j = idx + (j + 1) := by omega
        rw [harith]
        simpa using ho2
      have herr' : signStep c master tx pv ((idx + 1) + k')
          (rest.getD k' Input.default) = Except.error msg := by
        have harith : (idx + 1) + k' = idx + (k' + 1) := by omega
        rw [harith]
        simpa using herr
      obtain ⟨outs', hloop, hlen, hge, hlt⟩ :=
        ih (idx + 1) k' msg (by simpa using hk) hpre' herr'
      refine ⟨o :: outs', ?_, by simp [hlen], ?_, ?_⟩
      · rw [signLoop, ho', hloop]; rfl
      · intro j hj
        cases j with
        | zero => omega
        | succ j' =>
          rw [List.getD_cons_succ, List.getD_cons_succ]
          exact hge j' (by omega)
      · intro j hj
        cases j with
        | zero => simpa using ho
        | succ j' =>
          have harith : idx + (j' + 1) = (idx + 1) + j' := by omega
          rw [harith, List.getD_cons_succ, List.getD_cons_succ]
          exact hlt j' (by omega)

/-- C10: `sign_round_utxo_inputs` requires every input of the PSBT —
including untagged ones — to carry a witness utxo: if any input has none,
the prevout-building `unwrap` panics before anything is signed, instead of
returning a recoverable error. -/
theorem sign_round_utxo_inputs_panics_on_missing_witness_utxo (c : Crypto)
    (app : App) (psbt : Psbt) (h : ∃ i ∈ psbt.inputs, i.witness_utxo = none) :
    App.sign_round_utxo_inputs c app psbt = SignResult.panic "unwrap on None" := by
  unfold App.sign_round_utxo_inputs
  rw [collectPrevouts_none psbt.inputs h]

/-- C10 witness: the panic on a PSBT whose only input is untagged and lacks
its witness utxo. -/
theorem sign_round_utxo_inputs_panics_on_missing_witness_utxo_witness :
    (∃ i ∈ noWitPsbt.inputs, i.witness_utxo = none) ∧
    App.sign_round_utxo_inputs cryptoZ appW noWitPsbt =
      SignResult.panic "unwrap on None" :=
  ⟨by decide,
    sign_round_utxo_inputs_panics_on_missing_witness_utxo cryptoZ appW noWitPsbt (by decide)⟩

/-- C2: after a successful `sign_round_utxo_inputs` call, every
`Vtxo`-tagged input has its final witness set to the three elements
`[signature, script, serialized control block]` — the script-path sighash of
its sole tap-script leaf under `SIGHASH_DEFAULT`, signed with the service's
long-lived key — and every `Connector`-tagged input has its final witness
set to the single element `[signature]`, the key-path sighash under
`SIGHASH_DEFAULT` signed with the keyspend-tweaked derivative of the
service's key. -/
theorem sign_round_utxo_inputs_witness_shapes (c : Crypto) (app : App)
    (psbt : Psbt) (outs : List Input)
    (hok : App.sign_round_utxo_inputs c app psbt = SignResult.ok outs) :
    outs.length = psbt.inputs.length ∧
    ∀ j, j < psbt.inputs.length → ∀ r : Nat,
      ((psbt.inputs.getD j Input.default).get_round_meta =
          Except.ok (some (r, RoundMeta.Vtxo)) →
        ∃ cb s lv tl,
          (psbt.inputs.getD j Input.default).tap_scripts = (cb, s, lv) :: tl ∧
          outs.getD j Input.default = { psbt.inputs.getD j Input.default with final_script_witness := some [c.signSchnorr (c.scriptSpendSighash psbt.unsigned_tx (psbtPrevouts psbt.inputs) j (c.tapLeafHash s lv) tapSighashDefault) app.master_key, s, cb.ser] }) ∧
      ((psbt.inputs.getD j Input.default).get_round_meta =
          Except.ok (some (r, RoundMeta.Connector)) →
        outs.getD j Input.default = { psbt.inputs.getD j Input.default with final_script_witness := some [c.signSchnorr (c.keySpendSighash psbt.unsigned_tx (psbtPrevouts psbt.inputs) j tapSighashDefault) (c.for_keyspend app.master_key)] }) := by
  unfold App.sign_round_utxo_inputs at hok
  cases hcp : collectPrevouts psbt.inputs with
  | none => rw [hcp] at hok; cases hok
  | some pv =>
    rw [hcp] at hok
    have hpv := collectPrevouts_some_eq psbt.inputs pv hcp
    subst hpv
    obtain ⟨hlen, hstep⟩ :=
      signLoop_ok_spec c app.master_key psbt.unsigned_tx _ psbt.inputs 0 outs hok
    refine ⟨hlen, fun j hj r => ⟨fun hv => ?_, fun hc => ?_⟩⟩
    · have h := hstep j hj
      rw [Nat.zero_add] at h
      exact signStep_vtxo_inv _ _ _ _ _ _ _ r hv h
    · have h := hstep j hj
      rw [Nat.zero_add] at h
      exact signStep_connector_inv _ _ _ _ _ _ _ r hc h

/-- C2 witness: cosigning a concrete PSBT with one connector-tagged input
succeeds, and the theorem applies to it. -/
theorem sign_round_utxo_inputs_witness_shapes_witness :
    App.sign_round_utxo_inputs cryptoZ appW psbtConn = SignResult.ok outsConn ∧
    outsConn.length = psbtConn.inputs.length :=
  ⟨by decide,
    (sign_round_utxo_inputs_witness_shapes cryptoZ appW psbtConn outsConn (by decide)).1⟩

/-- C3: after a successful `sign_round_utxo_inputs` call, every input with
no round-meta tag is left completely unchanged, and every input — tagged or
not — differs from its original at most in `final_script_witness`; no other
input field is modified. -/
theorem sign_round_utxo_inputs_frame (c : Crypto) (app : App) (psbt : Psbt)
    (outs : List Input)
    (hok : App.sign_round_utxo_inputs c app psbt = SignResult.ok outs) :
    outs.length = psbt.inputs.length ∧
    ∀ j, j < psbt.inputs.length →
      ((psbt.inputs.getD j Input.default).get_round_meta = Except.ok none →
        outs.getD j Input.default = psbt.inputs.getD j Input.default) ∧
      ∃ w, outs.getD j Input.default =
        { psbt.inputs.getD j Input.default with final_script_witness := w } := by
  unfold App.sign_round_utxo_inputs at hok
  cases hcp : collectPrevouts psbt.inputs with
  | none => rw [hcp] at hok; cases hok
  | some pv =>
    rw [hcp] at hok
    obtain ⟨hlen, hstep⟩ :=
      signLoop_ok_spec c app.master_key psbt.unsigned_tx pv psbt.inputs 0 outs hok
    refine ⟨hlen, fun j hj => ⟨fun hn => ?_, ?_⟩⟩
    · have h := hstep j hj
      rw [Nat.zero_add] at h
      exact signStep_none_inv _ _ _ _ _ _ _ hn h
    · have h := hstep j hj
      rw [Nat.zero_add] at h
      exact signStep_frame _ _ _ _ _ _ _ h

/-- C3 witness: cosigning a concrete PSBT with a single untagged input
succeeds and the theorem applies to it. -/
theorem sign_round_utxo_inputs_frame_witness :
    App.sign_round_utxo_inputs cryptoZ appW psbtPlain = SignResult.ok [plainIn] ∧
    [plainIn].length = psbtPlain.inputs.length :=
  ⟨by decide,
    (sign_round_utxo_inputs_frame cryptoZ appW psbtPlain [plainIn] (by decide)).1⟩

/-- C4 counterexample: the claim says a corrupt `Vtxo` input (no tap-script
entry) makes the call fail while leaving all other inputs' witnesses
unmodified regardless of its position; but on a PSBT whose corrupt input
comes second, the connector-tagged first input has already had its final
witness set in place when the error returns. -/
theorem sign_round_utxo_inputs_corrupt_counterexample :
    App.sign_round_utxo_inputs cryptoZ appW psbtCorrupt =
      SignResult.err "corrupt psbt: missing tap_scripts" outsCorrupt ∧
    (outsCorrupt.getD 0 Input.default).final_script_witness ≠
      (psbtCorrupt.inputs.getD 0 Input.default).final_script_witness := by
  constructor
  · decide
  · decide

/-- C4 amended: on a PSBT all of whose inputs carry witness utxos, with a
`Vtxo`-tagged input at position `k` that has no tap-script entry and whose
earlier inputs all process successfully, `sign_round_utxo_inputs` fails
with the corruption error; the corrupt input and every later input are left
unmodified, while inputs before it may already have been signed (only their
`final_script_witness` can differ). -/
theorem sign_round_utxo_inputs_corrupt_vtxo (c : Crypto) (app : App)
    (psbt : Psbt) (k : Nat)
    (hw : ∀ i ∈ psbt.inputs, i.witness_utxo.isSome = true)
    (hk : k < psbt.inputs.length)
    (hmeta : ∃ r, (psbt.inputs.getD k Input.default).get_round_meta =
      Except.ok (some (r, RoundMeta.Vtxo)))
    (hts : (psbt.inputs.getD k Input.default).tap_scripts = [])
    (hpre : ∀ j, j < k → ∃ o,
      signStep c app.master_key psbt.unsigned_tx (psbtPrevouts psbt.inputs) j
        (psbt.inputs.getD j Input.default) = Except.ok o) :
    ∃ outs, App.sign_round_utxo_inputs c app psbt =
        SignResult.err "corrupt psbt: missing tap_scripts" outs ∧
      outs.length = psbt.inputs.length ∧
      (∀ j, k ≤ j → outs.getD j Input.default = psbt.inputs.getD j Input.default) ∧
      (∀ j, j < k → ∃ w, outs.getD j Input.default =
        { psbt.inputs.getD j Input.default with final_script_witness := w }) := by
  obtain ⟨r, hm⟩ := hmeta
  have herr : signStep c app.master_key psbt.unsigned_tx
      (psbtPrevouts psbt.inputs) (0 + k) (psbt.inputs.getD k Input.default) =
      Except.error "corrupt psbt: missing tap_scripts" := by
    rw [Nat.zero_add]
    unfold signStep
    rw [hm, hts]
  have hpre' : ∀ j, j < k → ∃ o,
      signStep c app.master_key psbt.unsigned_tx (psbtPrevouts psbt.inputs)
        (0 + j) (psbt.inputs.getD j Input.default) = Except.ok o := by
    intro j hj
    rw [Nat.zero_add]
    exact hpre j hj
  obtain ⟨outs, hloop, hlen, hge, hlt⟩ :=
    signLoop_err_spec c app.master_key psbt.unsigned_tx (psbtPrevouts psbt.inputs)
      psbt.inputs 0 k _ hk hpre' herr
  refine ⟨outs, ?_, hlen, hge, ?_⟩
  · unfold App.sign_round_utxo_inputs
    rw [collectPrevouts_eq psbt.inputs hw]
    exact hloop
  · intro j hj
    have h := hlt j hj
    rw [Nat.zero_add] at h
    exact signStep_frame _ _ _ _ _ _ _ h

/-- C4 amended witness: the corruption failure on the concrete PSBT whose
connector input precedes the corrupt vtxo input. -/
theorem sign_round_utxo_inputs_corrupt_vtxo_witness :
    ∃ outs, App.sign_round_utxo_inputs cryptoZ appW psbtCorrupt =
        SignResult.err "corrupt psbt: missing tap_scripts" outs ∧
      outs.length = psbtCorrupt.inputs.length ∧
      (∀ j, 1 ≤ j → outs.getD j Input.default = psbtCorrupt.inputs.getD j Input.default) ∧
      (∀ j, j < 1 → ∃ w, outs.getD j Input.default =
        { psbtCorrupt.inputs.getD j Input.default with final_script_witness := w }) :=
  sign_round_utxo_inputs_corrupt_vtxo cryptoZ appW psbtCorrupt 1
    (by decide) (by decide) ⟨9, by decide⟩ (by decide)
    (by
      intro j hj
      have hj0 : j = 0 := by omega
      subst hj0
      exact ⟨_, rfl⟩)

/-- C9: `onchain_address` is idempotent — for the non-wildcard descriptor
wallet arkd opens, the call returns the wallet's single address and leaves
the state unchanged, so repeated calls return the same address. -/
theorem onchain_address_idempotent (app : App) (k : Nat)
    (h : app.wallet.descriptor = Descriptor.trSingle k) :
    App.onchain_address app = (k, app) ∧
    App.onchain_address (App.onchain_address app).2 = (k, app) := by
  obtain ⟨mk, db, w⟩ := app
  obtain ⟨desc, ni⟩ := w
  have hd : desc = Descriptor.trSingle k := h
  subst hd
  exact ⟨rfl, rfl⟩

/-- C9 witness: the idempotent address at a concrete wallet. -/
theorem onchain_address_idempotent_witness :
    App.onchain_address appW = (11, appW) ∧
    App.onchain_address (App.onchain_address appW).2 = (11, appW) :=
  onchain_address_idempotent appW 11 rfl

end Ark
